import Mathlib

/-
Verification development for the CriptoAnalytics lead-lag analysis engine
(src/main.py).  The pipeline is shallowly embedded: pandas DataFrames become
lists of records, timestamps become integers (seconds), prices become
rationals, NaN cells become Option values (pandas comparisons against NaN
are False, which the embedding reproduces by explicit Option matching),
and the per-candidate try/except blocks become Except values folded over
the candidate list.
-/

set_option maxRecDepth 4000

attribute [local semireducible] Rat.add Rat.sub Rat.mul Rat.inv

namespace CriptoAnalytics

/-- One OHLCV bar as produced by fetch_data: the DataFrame columns
timestamp, open, high, low, close, volume.  Timestamps are modelled in
seconds as integers. -/
structure Bar where
  timestamp : Int
  open_ : ℚ
  high : ℚ
  low : ℚ
  close : ℚ
  volume : ℚ
deriving DecidableEq

/-- Helper to build a bar from a timestamp and a close price; the pipeline
never reads the other columns. -/
def mkBar (t : Int) (c : ℚ) : Bar :=
  { timestamp := t, open_ := 0, high := 0, low := 0, close := c, volume := 0 }

/-- A row of the DataFrame after get_price_changes: the bar columns plus
price_change (none models the NaN that pct_change leaves on the first row)
and the direction label, a string exactly as in the source
(np.where(price_change > 0, rost, spad)). -/
structure DirRow where
  timestamp : Int
  open_ : ℚ
  high : ℚ
  low : ℚ
  close : ℚ
  volume : ℚ
  priceChange : Option ℚ
  direction : String
deriving DecidableEq

/-- The condition price_change > 0 as numpy evaluates it: NaN > 0 is False. -/
def pcPos : Option ℚ → Bool
  | some v => decide (0 < v)
  | none => false

/-- The direction np.where assigns to one price_change cell. -/
def dirOf (pc : Option ℚ) : String :=
  if pcPos pc then "рост" else "спад"

/-- Recursion for get_price_changes carrying the previous close (none before
the first row, matching pct_change's leading NaN). -/
def getPriceChangesAux : Option ℚ → List Bar → List DirRow
  | _, [] => []
  | prev, b :: rest =>
    let pc : Option ℚ :=
      match prev with
      | none => none
      | some p => some ((b.close - p) / p)
    { timestamp := b.timestamp, open_ := b.open_, high := b.high, low := b.low,
      close := b.close, volume := b.volume,
      priceChange := pc, direction := dirOf pc }
      :: getPriceChangesAux (some b.close) rest

/-- get_price_changes of src/main.py: adds price_change = close.pct_change()
and direction = np.where(price_change > 0, rost, spad) columns. -/
def get_price_changes (data : List Bar) : List DirRow :=
  getPriceChangesAux none data

/-- Code point of a character, the unit Python compares strings by. -/
def charNo (c : Char) : Nat := c.val.toNat

/-- Lexicographic less-or-equal on code-point lists, Python's (and hence
pandas') string order, used by groupby when sorting group keys. -/
def listLeB : List Char → List Char → Bool
  | [], _ => true
  | _ :: _, [] => false
  | a :: as, b :: bs =>
    if charNo a < charNo b then true
    else if charNo b < charNo a then false
    else listLeB as bs

/-- Python's string less-or-equal as a proposition. -/
def strLe (a b : String) : Prop := listLeB a.data b.data = true

instance : DecidableRel strLe := fun _ _ => inferInstanceAs (Decidable (_ = true))

theorem listLeB_total (x y : List Char) : listLeB x y = true ∨ listLeB y x = true := by
  induction x generalizing y with
  | nil => left; rfl
  | cons a as ih =>
    cases y with
    | nil => right; rfl
    | cons b bs =>
      simp only [listLeB]
      rcases Nat.lt_trichotomy (charNo a) (charNo b) with h | h | h
      · left; simp [h]
      · rcases ih bs with h' | h' <;> [left; right] <;>
          simp [h, h', Nat.lt_irrefl]
      · right; simp [h]

theorem listLeB_trans (x y z : List Char) (h1 : listLeB x y = true) (h2 : listLeB y z = true) :
    listLeB x z = true := by
  induction x generalizing y z with
  | nil => rfl
  | cons a as ih =>
    cases y with
    | nil => simp [listLeB] at h1
    | cons b bs =>
      cases z with
      | nil => simp [listLeB] at h2
      | cons c cs =>
        simp only [listLeB] at h1 h2 ⊢
        by_cases hab : charNo a < charNo b <;> by_cases hbc : charNo b < charNo c <;>
          by_cases hba : charNo b < charNo a <;> by_cases hcb : charNo c < charNo b <;>
          simp [hab, hbc, hba, hcb] at h1 h2 ⊢ <;>
          first
            | omega
            | (have hac : ¬ charNo a < charNo c := by omega
               have hca : ¬ charNo c < charNo a := by omega
               simp [hac, hca]
               exact ⟨by omega, ih bs cs h1 h2⟩)

instance : IsTotal String strLe := ⟨fun a b => listLeB_total a.data b.data⟩

instance : IsTrans String strLe := ⟨fun a b c => listLeB_trans a.data b.data c.data⟩

/-- A row of merged_data: the candidate DirRow columns plus the two columns
brought in from btc_data by pd.merge_asof with suffix _btc.  A candidate row
with no reference row at or before its timestamp keeps none in both merged
columns, modelling the NaN fill of the left asof join. -/
structure MergedRow where
  timestamp : Int
  open_ : ℚ
  high : ℚ
  low : ℚ
  close : ℚ
  volume : ℚ
  priceChange : Option ℚ
  direction : String
  directionBtc : Option String
  closeBtc : Option ℚ
deriving DecidableEq

/-- Backward asof match: the last reference row whose timestamp is at or
before t (for sorted references, the most recent one; never looks forward). -/
def asofBackward (btc : List DirRow) (t : Int) : Option DirRow :=
  (btc.filter (fun r => decide (r.timestamp ≤ t))).getLast?

/-- One output row of pd.merge_asof for one candidate row. -/
def mergeRow (btc : List DirRow) (r : DirRow) : MergedRow :=
  match asofBackward btc r.timestamp with
  | some b =>
    { timestamp := r.timestamp, open_ := r.open_, high := r.high, low := r.low,
      close := r.close, volume := r.volume, priceChange := r.priceChange,
      direction := r.direction, directionBtc := some b.direction, closeBtc := some b.close }
  | none =>
    { timestamp := r.timestamp, open_ := r.open_, high := r.high, low := r.low,
      close := r.close, volume := r.volume, priceChange := r.priceChange,
      direction := r.direction, directionBtc := none, closeBtc := none }

/-- pd.merge_asof(altcoin_data, btc_data, on=timestamp, suffixes ('', '_btc')):
a left join keeping every candidate row, filling direction_btc/close_btc from
the most recent reference row at or before the candidate timestamp. -/
def merge_asof (altcoin btc : List DirRow) : List MergedRow :=
  altcoin.map (mergeRow btc)

/-- Monotone non-decreasing check on timestamps; pd.merge_asof raises
"keys must be sorted" when it fails on either side. -/
def nondecreasing : List Int → Bool
  | [] => true
  | [_] => true
  | a :: b :: rest => if a ≤ b then nondecreasing (b :: rest) else false

/-- merge_asof including the sortedness preconditions it enforces; an
unsorted input is one concrete way the per-candidate body raises. -/
def merge_asofE (altcoin btc : List DirRow) : Except String (List MergedRow) :=
  if nondecreasing (altcoin.map (·.timestamp)) then
    if nondecreasing (btc.map (·.timestamp)) then
      Except.ok (merge_asof altcoin btc)
    else Except.error "right keys must be sorted"
  else Except.error "left keys must be sorted"

/-- A matching row after calculate_time_delay_and_times has been joined on:
time_delay, btc_time and altcoin_time columns added to the merged row. -/
structure MatchRow where
  timestamp : Int
  open_ : ℚ
  high : ℚ
  low : ℚ
  close : ℚ
  volume : ℚ
  priceChange : Option ℚ
  direction : String
  directionBtc : Option String
  closeBtc : Option ℚ
  timeDelay : Option ℚ
  btcTime : Option Int
  altcoinTime : Int
deriving DecidableEq

/-- btc_data.loc[btc_data.timestamp <= row.timestamp, timestamp].max():
none models the NaT a max over an empty selection would give. -/
def btcChangeTime (btc : List DirRow) (t : Int) : Option Int :=
  ((btc.filter (fun r => decide (r.timestamp ≤ t))).map (·.timestamp)).max?

/-- calculate_time_delay_and_times for one row: delay in seconds between the
candidate row and the latest reference timestamp at or before it. -/
def addDelay (btc : List DirRow) (row : MergedRow) : MatchRow :=
  let bt := btcChangeTime btc row.timestamp
  { timestamp := row.timestamp, open_ := row.open_, high := row.high, low := row.low,
    close := row.close, volume := row.volume, priceChange := row.priceChange,
    direction := row.direction, directionBtc := row.directionBtc, closeBtc := row.closeBtc,
    timeDelay := bt.map (fun t => ((row.timestamp - t : Int) : ℚ)),
    btcTime := bt, altcoinTime := row.timestamp }

/-- merged_data[merged_data.direction == merged_data.direction_btc], with the
delay columns joined on: rows whose candidate direction equals the reference
direction (a NaN direction_btc compares unequal to any string, so unmatched
candidate rows are filtered out here). -/
def matchingData (btc : List DirRow) (merged : List MergedRow) : List MatchRow :=
  (merged.filter (fun row => decide (row.directionBtc = some row.direction))).map (addDelay btc)

/-- One row of groupby(direction_btc).agg(...).reset_index(). -/
structure DelayRecord where
  directionBtc : String
  timeDelay : Option ℚ
  btcTime : Option Int
  altcoinTime : Option Int
  direction : Option String
deriving DecidableEq

/-- The pandas mean aggregation: arithmetic mean of the non-NaN cells of a
column, NaN (none) when there are no such cells. -/
def aggMean (l : List (Option ℚ)) : Option ℚ :=
  let vs := l.filterMap id
  if vs.length = 0 then none else some (vs.sum / (vs.length : ℚ))

/-- The pandas first aggregation: first non-NaN cell of a column. -/
def aggFirst {α : Type} (l : List (Option α)) : Option α :=
  (l.filterMap id).head?

/-- Series.mode()[0]: smallest value among those of maximal frequency (mode
returns the most frequent values sorted ascending; [0] picks the first). -/
def modeZero (l : List String) : Option String :=
  (List.insertionSort strLe l.dedup).foldl
    (fun best k =>
      match best with
      | none => some k
      | some b => if l.count b < l.count k then some k else best)
    none

/-- Group keys of groupby(direction_btc): the distinct direction_btc values,
sorted ascending (the groupby default sort=True), in Python string order. -/
def groupKeys (rows : List MatchRow) : List String :=
  List.insertionSort strLe (rows.filterMap (·.directionBtc)).dedup

/-- The rows of one direction_btc group, in their original order. -/
def groupRows (rows : List MatchRow) (k : String) : List MatchRow :=
  rows.filter (fun r => decide (r.directionBtc = some k))

/-- The aggregated record of one group: time_delay mean, btc_time first,
altcoin_time first, direction mode()[0]. -/
def aggGroup (rows : List MatchRow) (k : String) : DelayRecord :=
  let g := groupRows rows k
  { directionBtc := k
    timeDelay := aggMean (g.map (·.timeDelay))
    btcTime := aggFirst (g.map (·.btcTime))
    altcoinTime := (g.map (·.altcoinTime)).head?
    direction := modeZero (g.map (·.direction)) }

/-- matching_data.groupby([direction_btc]).agg(...).reset_index(): one
aggregated record per distinct direction_btc value, keys sorted ascending. -/
def groupbyDirection (rows : List MatchRow) : List DelayRecord :=
  (groupKeys rows).map (aggGroup rows)

/-- One row of the full_data column selection
[timestamp, close, direction, btc_time, altcoin_time]. -/
structure FullRow where
  timestamp : Int
  close : ℚ
  direction : String
  btcTime : Option Int
  altcoinTime : Int
deriving DecidableEq

def toFullRow (r : MatchRow) : FullRow :=
  { timestamp := r.timestamp, close := r.close, direction := r.direction,
    btcTime := r.btcTime, altcoinTime := r.altcoinTime }

/-- One entry of matching_results: the symbol, the aggregated per-direction
records, and the matching detail rows. -/
structure MatchingResult where
  altcoinPair : String
  result : List DelayRecord
  fullData : List FullRow
deriving DecidableEq

/-- The body of the per-candidate loop of the index endpoint, from
get_price_changes(altcoin_data) to the appended record: ok none when
matching_data is empty (the candidate contributes nothing), error when the
body raises (merge_asof on unsorted keys). -/
def processCandidate (btc : List DirRow) (symbol : String) (bars : List Bar) :
    Except String (Option MatchingResult) :=
  let altcoin := get_price_changes bars
  match merge_asofE altcoin btc with
  | Except.error e => Except.error e
  | Except.ok merged =>
    let matching := matchingData btc merged
    if matching.isEmpty then Except.ok none
    else
      Except.ok (some
        { altcoinPair := symbol
          result := groupbyDirection matching
          fullData := matching.map toFullRow })

/-- One iteration of the index loop over (symbol, fetched data) pairs: a
failed fetch (none) is skipped, a raised exception is caught and skipped,
an empty matching set appends nothing, otherwise the result is appended. -/
def indexStep (btc : List DirRow) (acc : List MatchingResult)
    (cand : String × Option (List Bar)) : List MatchingResult :=
  match cand.2 with
  | none => acc
  | some bars =>
    match processCandidate btc cand.1 bars with
    | Except.error _ => acc
    | Except.ok none => acc
    | Except.ok (some r) => acc ++ [r]

/-- The index endpoint's analysis core: none for btc_data means the reference
fetch failed, in which case the template is rendered with an empty data
list; otherwise every candidate is folded through the loop body. -/
def index (btcOpt : Option (List Bar)) (cands : List (String × Option (List Bar))) :
    List MatchingResult :=
  match btcOpt with
  | none => []
  | some btcBars => cands.foldl (indexStep (get_price_changes btcBars)) []

/-- pd.merge_asof(altcoin[[timestamp, close]], btc[[timestamp, close]]):
each candidate close paired with the close of the most recent reference row
at or before it (none when there is none). -/
def merge_asof_closes (altcoin btc : List DirRow) : List (ℚ × Option ℚ) :=
  altcoin.map (fun r => (r.close, (asofBackward btc r.timestamp).map (·.close)))

/-- Series.corr drops pairs containing NaN before computing Pearson r. -/
def corrPairs (merged : List (ℚ × Option ℚ)) : List (ℚ × ℚ) :=
  merged.filterMap (fun p => p.2.map (fun b => (p.1, b)))

/-- Mean of a rational column (division by a zero length yields the junk
value 0, only ever used on empty input). -/
def qmean (l : List ℚ) : ℚ := l.sum / (l.length : ℚ)

/-- Centered cross sum of the aligned pairs (the n-1 factors of pandas'
sample covariance and standard deviations cancel in the correlation). -/
def sxy (pairs : List (ℚ × ℚ)) : ℚ :=
  let mx := qmean (pairs.map (·.1))
  let my := qmean (pairs.map (·.2))
  (pairs.map (fun p => (p.1 - mx) * (p.2 - my))).sum

/-- Centered square sum of the first components. -/
def sxx (pairs : List (ℚ × ℚ)) : ℚ :=
  let mx := qmean (pairs.map (·.1))
  (pairs.map (fun p => (p.1 - mx) * (p.1 - mx))).sum

/-- Centered square sum of the second components. -/
def syy (pairs : List (ℚ × ℚ)) : ℚ :=
  let my := qmean (pairs.map (·.2))
  (pairs.map (fun p => (p.2 - my) * (p.2 - my))).sum

/-- Pearson correlation of the aligned close pairs, as a real number.  Where
pandas returns NaN (fewer than two pairs, or a zero variance) the real
division by the zero denominator yields the junk value 0; both NaN and 0
fail the >= 0.8 comparison, so retention is modelled faithfully. -/
noncomputable def corr (pairs : List (ℚ × ℚ)) : ℝ :=
  ((sxy pairs : ℚ) : ℝ) / (Real.sqrt ((sxx pairs : ℚ) : ℝ) * Real.sqrt ((syy pairs : ℚ) : ℝ))

/-- merged_data.close.corr(merged_data.close_btc) for one candidate. -/
noncomputable def candidateCorrelation (btc altcoin : List DirRow) : ℝ :=
  corr (corrPairs (merge_asof_closes altcoin btc))

/-- The fixed correlation_threshold = 0.8 of the graph endpoint. -/
noncomputable def correlation_threshold : ℝ := 0.8

/-- One chart entry: the symbol and the correlation shown in its title. -/
structure GraphEntry where
  symbol : String
  correlation : ℝ

/-- The response of the graph endpoint: a distinct error object when the
reference fetch fails, otherwise the page with the retained charts. -/
inductive GraphResponse where
  | fetchError : GraphResponse
  | page : List GraphEntry → GraphResponse

/-- The body of the per-candidate loop of the graph endpoint: merge the
close series (raising on unsorted keys), compute the correlation, and
retain the candidate iff correlation >= correlation_threshold. -/
noncomputable def processGraphCandidate (btc : List DirRow) (symbol : String)
    (bars : List Bar) : Except String (Option GraphEntry) :=
  if nondecreasing ((get_price_changes bars).map (·.timestamp)) then
    if nondecreasing (btc.map (·.timestamp)) then
      if correlation_threshold ≤ candidateCorrelation btc (get_price_changes bars) then
        Except.ok (some ⟨symbol, candidateCorrelation btc (get_price_changes bars)⟩)
      else Except.ok none
    else Except.error "right keys must be sorted"
  else Except.error "left keys must be sorted"

/-- One iteration of the graph loop: failed fetches and raised exceptions
are skipped, rejected candidates append nothing. -/
noncomputable def graphStep (btc : List DirRow) (acc : List GraphEntry)
    (cand : String × Option (List Bar)) : List GraphEntry :=
  match cand.2 with
  | none => acc
  | some bars =>
    match processGraphCandidate btc cand.1 bars with
    | Except.error _ => acc
    | Except.ok none => acc
    | Except.ok (some e) => acc ++ [e]

/-- The graph endpoint's core: a JSON error object when the reference fetch
fails, otherwise the page of retained candidates in input order. -/
noncomputable def graph (btcOpt : Option (List Bar))
    (cands : List (String × Option (List Bar))) : GraphResponse :=
  match btcOpt with
  | none => GraphResponse.fetchError
  | some btcBars => GraphResponse.page (cands.foldl (graphStep (get_price_changes btcBars)) [])

theorem getPriceChangesAux_length (prev : Option ℚ) (l : List Bar) :
    (getPriceChangesAux prev l).length = l.length := by
  induction l generalizing prev with
  | nil => rfl
  | cons b rest ih => simp [getPriceChangesAux, ih]

theorem getPriceChangesAux_timestamps (prev : Option ℚ) (l : List Bar) :
    (getPriceChangesAux prev l).map (·.timestamp) = l.map (·.timestamp) := by
  induction l generalizing prev with
  | nil => rfl
  | cons b rest ih => simp [getPriceChangesAux, ih]

theorem getPriceChangesAux_direction (prev : Option ℚ) (l : List Bar) :
    ∀ r ∈ getPriceChangesAux prev l, r.direction = dirOf r.priceChange := by
  induction l generalizing prev with
  | nil => intro r hr; cases hr
  | cons b rest ih =>
    intro r hr
    rcases List.mem_cons.mp hr with h | h
    · subst h; rfl
    · exact ih (some b.close) r h

theorem dirOf_rost_iff (pc : Option ℚ) :
    dirOf pc = "рост" ↔ ∃ v, pc = some v ∧ 0 < v := by
  cases pc with
  | none =>
    simp only [dirOf, pcPos, Bool.false_eq_true, if_false]
    constructor
    · intro h; exact absurd h (by decide)
    · rintro ⟨v, hv, _⟩; cases hv
  | some v =>
    simp only [dirOf, pcPos]
    by_cases h : 0 < v
    · simp [h]
    · simp only [h, decide_eq_false, Bool.false_eq_true, if_false]
      constructor
      · intro hh; exact absurd hh (by decide)
      · rintro ⟨w, hw, hw'⟩; cases hw; exact absurd hw' h

theorem dirOf_cases (pc : Option ℚ) : dirOf pc = "рост" ∨ dirOf pc = "спад" := by
  unfold dirOf
  by_cases h : pcPos pc = true <;> simp [h]

/-- C5: the direction classifier produces one output row per input bar in the
same order; a row's direction is UP exactly when its price change is defined
and positive (so zero, negative and the first row's undefined NaN change all
yield DOWN); the first row of every non-empty series has an undefined price
change and direction DOWN. -/
theorem c5_direction_classifier (l : List Bar) :
    (get_price_changes l).length = l.length
    ∧ (get_price_changes l).map (·.timestamp) = l.map (·.timestamp)
    ∧ (∀ r ∈ get_price_changes l,
        (r.direction = "рост" ↔ ∃ v, r.priceChange = some v ∧ 0 < v)
        ∧ (r.direction = "рост" ∨ r.direction = "спад"))
    ∧ (∀ b rest, l = b :: rest →
        ∃ r tl, get_price_changes l = r :: tl ∧ r.priceChange = none ∧ r.direction = "спад") := by
  refine ⟨getPriceChangesAux_length none l, getPriceChangesAux_timestamps none l, ?_, ?_⟩
  · intro r hr
    have hd := getPriceChangesAux_direction none l r hr
    exact ⟨hd ▸ dirOf_rost_iff r.priceChange, hd ▸ dirOf_cases r.priceChange⟩
  · intro b rest hl
    subst hl
    exact ⟨_, _, rfl, rfl, rfl⟩

/-- Witness for C5 at a concrete two-bar series: its first row has an
undefined price change and direction DOWN. -/
theorem c5_direction_classifier_witness :
    ∃ r tl, get_price_changes [mkBar 0 100, mkBar 60 105] = r :: tl
      ∧ r.priceChange = none ∧ r.direction = "спад" :=
  (c5_direction_classifier [mkBar 0 100, mkBar 60 105]).2.2.2 (mkBar 0 100) [mkBar 60 105] rfl

theorem asofBackward_some (btc : List DirRow) (t : Int) (b : DirRow)
    (h : asofBackward btc t = some b) : b.timestamp ≤ t ∧ b ∈ btc := by
  have hb : b ∈ btc.filter (fun r => decide (r.timestamp ≤ t)) :=
    List.mem_of_mem_getLast? h
  have hb' := List.mem_filter.mp hb
  exact ⟨by simpa using hb'.2, hb'.1⟩

theorem asofBackward_none (btc : List DirRow) (t : Int)
    (h : ∀ x ∈ btc, t < x.timestamp) : asofBackward btc t = none := by
  unfold asofBackward
  have : btc.filter (fun r => decide (r.timestamp ≤ t)) = [] := by
    rw [List.filter_eq_nil_iff]
    intro x hx
    simpa using not_le.mpr (h x hx)
  rw [this]; rfl

theorem btcChangeTime_le (btc : List DirRow) (t u : Int)
    (h : btcChangeTime btc t = some u) : u ≤ t := by
  have hu : u ∈ (btc.filter (fun r => decide (r.timestamp ≤ t))).map (·.timestamp) :=
    List.max?_mem max_choice h
  rcases List.mem_map.mp hu with ⟨r, hr, hru⟩
  have hle := (List.mem_filter.mp hr).2
  rw [← hru]
  simpa using hle

theorem mergeRow_timestamp (btc : List DirRow) (r : DirRow) :
    (mergeRow btc r).timestamp = r.timestamp := by
  unfold mergeRow
  cases asofBackward btc r.timestamp <;> rfl

theorem mergeRow_directionBtc_some (btc : List DirRow) (r : DirRow) (d : String)
    (h : (mergeRow btc r).directionBtc = some d) :
    ∃ b, asofBackward btc r.timestamp = some b ∧ b.direction = d := by
  unfold mergeRow at h
  cases hab : asofBackward btc r.timestamp with
  | none => rw [hab] at h; cases h
  | some b => rw [hab] at h; exact ⟨b, rfl, Option.some.inj h⟩

theorem mem_merge_asof (altcoin btc : List DirRow) (m : MergedRow)
    (h : m ∈ merge_asof altcoin btc) : ∃ a ∈ altcoin, m = mergeRow btc a := by
  rcases List.mem_map.mp h with ⟨a, ha, hm⟩
  exact ⟨a, ha, hm.symm⟩

theorem mem_matchingData (btc : List DirRow) (merged : List MergedRow) (row : MatchRow)
    (h : row ∈ matchingData btc merged) :
    ∃ m ∈ merged, m.directionBtc = some m.direction ∧ row = addDelay btc m := by
  unfold matchingData at h
  rcases List.mem_map.mp h with ⟨m, hm, hrow⟩
  have hm' := List.mem_filter.mp hm
  exact ⟨m, hm'.1, by simpa using hm'.2, hrow.symm⟩

theorem addDelay_timestamp (btc : List DirRow) (m : MergedRow) :
    (addDelay btc m).timestamp = m.timestamp := rfl

theorem addDelay_btcTime (btc : List DirRow) (m : MergedRow) :
    (addDelay btc m).btcTime = btcChangeTime btc m.timestamp := rfl

theorem addDelay_timeDelay (btc : List DirRow) (m : MergedRow) :
    (addDelay btc m).timeDelay
      = (btcChangeTime btc m.timestamp).map (fun t => ((m.timestamp - t : Int) : ℚ)) := rfl

theorem addDelay_directionBtc (btc : List DirRow) (m : MergedRow) :
    (addDelay btc m).directionBtc = m.directionBtc := rfl

theorem get_price_changes_ts_gt (bars : List Bar) (t : Int)
    (h : ∀ r ∈ bars, t < r.timestamp) :
    ∀ x ∈ get_price_changes bars, t < x.timestamp := by
  intro x hx
  have hmem : x.timestamp ∈ (get_price_changes bars).map (·.timestamp) :=
    List.mem_map_of_mem _ hx
  rw [get_price_changes, getPriceChangesAux_timestamps] at hmem
  rcases List.mem_map.mp hmem with ⟨r0, hr0, he⟩
  exact he ▸ h r0 hr0

theorem get_price_changes_ts_mem (bars : List Bar) (b : Bar) (hb : b ∈ bars) :
    ∃ x ∈ get_price_changes bars, x.timestamp = b.timestamp := by
  have hmem : b.timestamp ∈ bars.map (·.timestamp) := List.mem_map_of_mem _ hb
  rw [← getPriceChangesAux_timestamps none bars] at hmem
  rcases List.mem_map.mp hmem with ⟨x, hx, he⟩
  exact ⟨x, hx, he⟩

/-- C3: a candidate bar with no reference bar at or before its timestamp is
dropped: its merged row carries NaN in both joined columns (so it is no
aligned match), and no matching-data row, hence no detail row and no delay,
stems from its timestamp. -/
theorem c3_unmatched_candidate_dropped (btcBars candBars : List Bar) (b : Bar)
    (hb : b ∈ candBars) (hnone : ∀ r ∈ btcBars, b.timestamp < r.timestamp) :
    (∃ row ∈ merge_asof (get_price_changes candBars) (get_price_changes btcBars),
        row.timestamp = b.timestamp ∧ row.directionBtc = none ∧ row.closeBtc = none)
    ∧ (∀ row ∈ matchingData (get_price_changes btcBars)
          (merge_asof (get_price_changes candBars) (get_price_changes btcBars)),
        row.timestamp ≠ b.timestamp)
    ∧ (∀ fr ∈ (matchingData (get_price_changes btcBars)
          (merge_asof (get_price_changes candBars) (get_price_changes btcBars))).map toFullRow,
        fr.timestamp ≠ b.timestamp) := by
  have hbtc : ∀ x ∈ get_price_changes btcBars, b.timestamp < x.timestamp :=
    get_price_changes_ts_gt btcBars b.timestamp hnone
  have hmatch : ∀ row ∈ matchingData (get_price_changes btcBars)
      (merge_asof (get_price_changes candBars) (get_price_changes btcBars)),
      row.timestamp ≠ b.timestamp := by
    intro row hrow heq
    rcases mem_matchingData _ _ _ hrow with ⟨m, hm, hdir, hrow'⟩
    rcases mem_merge_asof _ _ _ hm with ⟨a, _, hma⟩
    rcases mergeRow_directionBtc_some (get_price_changes btcBars) a m.direction
        (hma ▸ hdir) with ⟨bb, hbb, _⟩
    have h1 := (asofBackward_some _ _ _ hbb).1
    have h2 := hbtc bb (asofBackward_some _ _ _ hbb).2
    have hts : row.timestamp = a.timestamp := by
      rw [hrow', addDelay_timestamp, hma, mergeRow_timestamp]
    rw [hts] at heq
    omega
  refine ⟨?_, hmatch, ?_⟩
  · rcases get_price_changes_ts_mem candBars b hb with ⟨x, hx, hxt⟩
    refine ⟨mergeRow (get_price_changes btcBars) x, List.mem_map_of_mem _ hx, ?_, ?_, ?_⟩
    · rw [mergeRow_timestamp, hxt]
    · unfold mergeRow
      rw [asofBackward_none _ _ (by rw [hxt]; exact hbtc)]
    · unfold mergeRow
      rw [asofBackward_none _ _ (by rw [hxt]; exact hbtc)]
  · intro fr hfr
    rcases List.mem_map.mp hfr with ⟨row, hrow, hfr'⟩
    have := hmatch row hrow
    rw [← hfr']
    exact this

/-- Witness for C3: with one reference bar at t = 60 and a candidate bar at
t = 10 before it, the t = 10 bar yields an unmatched merged row and no
matching row. -/
theorem c3_unmatched_candidate_dropped_witness :
    ∃ row ∈ merge_asof (get_price_changes [mkBar 10 5, mkBar 70 6])
        (get_price_changes [mkBar 60 100]),
      row.timestamp = 10 ∧ row.directionBtc = none ∧ row.closeBtc = none :=
  (c3_unmatched_candidate_dropped [mkBar 60 100] [mkBar 10 5, mkBar 70 6] (mkBar 10 5)
    (by decide) (by decide)).1

/-- C4: alignment never looks ahead.  Every matching row's btc_time is at or
before its candidate timestamp and its per-row delay is non-negative, and
every aggregated record's mean delay is non-negative. -/
theorem c4_no_lookahead (btcBars candBars : List Bar) :
    (∀ row ∈ matchingData (get_price_changes btcBars)
        (merge_asof (get_price_changes candBars) (get_price_changes btcBars)),
      (∀ t, row.btcTime = some t → t ≤ row.timestamp)
      ∧ (∀ d, row.timeDelay = some d → 0 ≤ d))
    ∧ (∀ rec ∈ groupbyDirection (matchingData (get_price_changes btcBars)
        (merge_asof (get_price_changes candBars) (get_price_changes btcBars))),
      ∀ m, rec.timeDelay = some m → 0 ≤ m) := by
  have hrow : ∀ row ∈ matchingData (get_price_changes btcBars)
      (merge_asof (get_price_changes candBars) (get_price_changes btcBars)),
      (∀ t, row.btcTime = some t → t ≤ row.timestamp)
      ∧ (∀ d, row.timeDelay = some d → 0 ≤ d) := by
    intro row hrow
    rcases mem_matchingData _ _ _ hrow with ⟨m, _, _, hrw⟩
    subst hrw
    constructor
    · intro t ht
      rw [addDelay_btcTime] at ht
      rw [addDelay_timestamp]
      exact btcChangeTime_le _ _ _ ht
    · intro d hd
      rw [addDelay_timeDelay] at hd
      rcases Option.map_eq_some'.mp hd with ⟨t, ht, hdt⟩
      have hle := btcChangeTime_le _ _ _ ht
      rw [← hdt]
      have : (0 : Int) ≤ m.timestamp - t := by omega
      exact_mod_cast this
  refine ⟨hrow, ?_⟩
  intro rec hrec m hm
  rcases List.mem_map.mp hrec with ⟨k, _, hrk⟩
  subst hrk
  have hagg : aggMean ((groupRows (matchingData (get_price_changes btcBars)
      (merge_asof (get_price_changes candBars) (get_price_changes btcBars))) k).map
        (·.timeDelay)) = some m := hm
  unfold aggMean at hagg
  by_cases hlen : (((groupRows (matchingData (get_price_changes btcBars)
      (merge_asof (get_price_changes candBars) (get_price_changes btcBars))) k).map
        (·.timeDelay)).filterMap id).length = 0
  · simp only [hlen, if_true] at hagg
    cases hagg
  · simp only [hlen, if_false] at hagg
    rw [← Option.some.inj hagg]
    refine div_nonneg (List.sum_nonneg ?_) (by positivity)
    intro v hv
    rcases List.mem_filterMap.mp hv with ⟨x, hx, hxv⟩
    have hxsome : x = some v := hxv
    subst hxsome
    rcases List.mem_map.mp hx with ⟨row, hrowg, hrv⟩
    have hrows : row ∈ matchingData (get_price_changes btcBars)
        (merge_asof (get_price_changes candBars) (get_price_changes btcBars)) :=
      (List.mem_filter.mp hrowg).1
    exact (hrow row hrows).2 v hrv

/-- Witness for C4 on a concrete scenario: the single aggregated UP record
has delay 10, which the theorem shows non-negative. -/
theorem c4_no_lookahead_witness :
    (⟨"рост", some 10, some 60, some 70, some "рост"⟩ : DelayRecord)
        ∈ groupbyDirection (matchingData (get_price_changes [mkBar 0 100, mkBar 60 105])
          (merge_asof (get_price_changes [mkBar 65 50, mkBar 70 55])
            (get_price_changes [mkBar 0 100, mkBar 60 105])))
    ∧ (0 : ℚ) ≤ 10 :=
  ⟨by decide,
   (c4_no_lookahead [mkBar 0 100, mkBar 60 105] [mkBar 65 50, mkBar 70 55]).2
     ⟨"рост", some 10, some 60, some 70, some "рост"⟩ (by decide) 10 (by decide)⟩

/-- Reference bars for the mean-delay scenario: t=0 close 100, t=60 close
105 (UP). -/
def btc7 : List Bar := [mkBar 0 100, mkBar 60 105]

/-- Candidate bars for the mean-delay scenario: a first bar at t=65 (DOWN by
the NaN policy, dropped by the agreement filter) and UP bars at t=70, 80, 90
with delays 10, 20, 30 against the reference change at t=60. -/
def cand7 : List Bar := [mkBar 65 50, mkBar 70 55, mkBar 80 60, mkBar 90 65]

/-- C7: each aggregated record's mean delay is the aggregated mean of its
group's per-row delays; the mean aggregation of defined delays is the
arithmetic mean; and on a concrete scenario whose agreeing UP group has
delays [10, 20, 30] seconds, the record's mean delay is 20. -/
theorem c7_mean_delay :
    (∀ rows : List MatchRow, ∀ rec ∈ groupbyDirection rows,
        rec.timeDelay = aggMean ((groupRows rows rec.directionBtc).map (·.timeDelay)))
    ∧ (∀ l : List ℚ, l ≠ [] → aggMean (l.map some) = some (l.sum / (l.length : ℚ)))
    ∧ ((matchingData (get_price_changes btc7)
          (merge_asof (get_price_changes cand7) (get_price_changes btc7))).map (·.timeDelay)
        = [some 10, some 20, some 30])
    ∧ groupbyDirection (matchingData (get_price_changes btc7)
          (merge_asof (get_price_changes cand7) (get_price_changes btc7)))
        = [⟨"рост", some 20, some 60, some 70, some "рост"⟩]
    ∧ ((10 : ℚ) + 20 + 30) / 3 = 20 := by
  refine ⟨?_, ?_, by decide, by decide, by decide⟩
  · intro rows rec hrec
    rcases List.mem_map.mp hrec with ⟨k, _, hrk⟩
    subst hrk
    rfl
  · intro l hl
    have hmap : (l.map some).filterMap id = l := by
      induction l with
      | nil => rfl
      | cons a as ih => simp [ih]
    have hlen : l.length ≠ 0 := fun h => hl (List.length_eq_zero.mp h)
    simp [aggMean, hmap, hlen]

/-- Witness for C7: the theorem's general parts applied at the concrete
scenario record and at the delay list [10, 20, 30]. -/
theorem c7_mean_delay_witness :
    ((⟨"рост", some 20, some 60, some 70, some "рост"⟩ : DelayRecord)
        ∈ groupbyDirection (matchingData (get_price_changes btc7)
            (merge_asof (get_price_changes cand7) (get_price_changes btc7))))
    ∧ ([(10 : ℚ), 20, 30] ≠ [])
    ∧ (⟨"рост", some 20, some 60, some 70, some "рост"⟩ : DelayRecord).timeDelay
        = aggMean ((groupRows (matchingData (get_price_changes btc7)
            (merge_asof (get_price_changes cand7) (get_price_changes btc7))) "рост").map
              (·.timeDelay))
    ∧ aggMean ([(10 : ℚ), 20, 30].map some)
        = some (([(10 : ℚ), 20, 30].sum / (([(10 : ℚ), 20, 30].length : ℚ)))) :=
  ⟨by decide, by decide,
   c7_mean_delay.1 (matchingData (get_price_changes btc7)
      (merge_asof (get_price_changes cand7) (get_price_changes btc7)))
     ⟨"рост", some 20, some 60, some 70, some "рост"⟩ (by decide),
   c7_mean_delay.2.1 [(10 : ℚ), 20, 30] (by decide)⟩

/-- Reference bars refuting the first-encounter ordering: t=0 close 100
(DOWN by the NaN policy), t=60 close 90 (DOWN), t=120 close 95 (UP). -/
def btcO : List Bar := [mkBar 0 100, mkBar 60 90, mkBar 120 95]

/-- Candidate bars refuting the first-encounter ordering: t=70 close 50
(first bar, DOWN, agreeing with the reference's DOWN at t=60) and t=130
close 55 (UP, agreeing with the reference's UP at t=120).  The DOWN
agreement is encountered first. -/
def candO : List Bar := [mkBar 70 50, mkBar 130 55]

/-- Counterexample to C2: on a candidate whose agreeing rows encounter DOWN
(spad) before UP (rost), the output records are ordered UP before DOWN —
groupby sorts the direction keys — not in first-encountered order. -/
theorem c2_record_order_counterexample :
    ((index (some btcO) [("ALT/USDT", some candO)]).map
        (fun r => r.result.map (·.directionBtc)) = [["рост", "спад"]])
    ∧ ((matchingData (get_price_changes btcO)
          (merge_asof (get_price_changes candO) (get_price_changes btcO))).map (·.direction)
        = ["спад", "рост"])
    ∧ (["рост", "спад"] : List String) ≠ ["спад", "рост"] := by
  refine ⟨by decide, by decide, by decide⟩

/-- C2 as amended: for every candidate there is exactly one record per
distinct reference direction present among the agreeing rows, but the
records are ordered by the direction label ascending in Python string order
(rost i.e. UP before spad i.e. DOWN), the pandas groupby sorted-key order,
not by first encounter. -/
theorem c2_one_record_per_direction_sorted (rows : List MatchRow) :
    ((groupbyDirection rows).map (·.directionBtc)
        = List.insertionSort strLe (rows.filterMap (·.directionBtc)).dedup)
    ∧ ((groupbyDirection rows).map (·.directionBtc)).Nodup
    ∧ (∀ k, k ∈ (groupbyDirection rows).map (·.directionBtc)
        ↔ ∃ row ∈ rows, row.directionBtc = some k)
    ∧ List.Sorted strLe ((groupbyDirection rows).map (·.directionBtc)) := by
  have hmap : (groupbyDirection rows).map (·.directionBtc)
      = List.insertionSort strLe (rows.filterMap (·.directionBtc)).dedup := by
    unfold groupbyDirection groupKeys
    rw [List.map_map]
    exact List.map_id _
  refine ⟨hmap, ?_, ?_, ?_⟩
  · rw [hmap]
    exact ((List.perm_insertionSort strLe _).nodup_iff).mpr (List.nodup_dedup _)
  · intro k
    rw [hmap]
    constructor
    · intro hk
      have := (List.perm_insertionSort strLe _).mem_iff.mp hk
      rcases List.mem_filterMap.mp (List.mem_dedup.mp this) with ⟨row, hrow, hdk⟩
      exact ⟨row, hrow, hdk⟩
    · rintro ⟨row, hrow, hdk⟩
      exact (List.perm_insertionSort strLe _).mem_iff.mpr
        (List.mem_dedup.mpr (List.mem_filterMap.mpr ⟨row, hrow, hdk⟩))
  · rw [hmap]
    exact List.sorted_insertionSort strLe _

/-- The reference bars of end-to-end scenario 1: t=0 close 100, t=60 close
105 (UP), t=120 close 103 (DOWN). -/
def btcS1 : List Bar := [mkBar 0 100, mkBar 60 105, mkBar 120 103]

/-- The candidate bars of end-to-end scenario 1: t=70 close 50 and t=130
close 49. -/
def candS1 : List Bar := [mkBar 70 50, mkBar 130 49]

/-- Counterexample to C1: on scenario 1 the pipeline does not mark both
candidate rows as agreeing with one UP and one DOWN delay record of 10s
each.  The candidate bar at t=70 is the first bar of its series, so the
classifier gives it direction DOWN (NaN price change), which disagrees
with the reference's UP at t=60. -/
theorem c1_scenario1_counterexample :
    ¬ ((index (some btcS1) [("ALT/USDT", some candS1)]).length = 1
      ∧ ∀ r ∈ index (some btcS1) [("ALT/USDT", some candS1)],
          r.fullData.length = 2
          ∧ (∃ rec ∈ r.result, rec.directionBtc = "рост" ∧ rec.timeDelay = some 10)
          ∧ (∃ rec ∈ r.result, rec.directionBtc = "спад" ∧ rec.timeDelay = some 10)) := by
  decide

/-- C1 as amended: on scenario 1 only the t=130 row agrees (the t=70 row is
the candidate's first bar, classified DOWN against the reference's UP), so
the pipeline yields a single DOWN record with delay 10s, representative
reference time 120 and candidate time 130. -/
theorem c1_scenario1_amended :
    index (some btcS1) [("ALT/USDT", some candS1)]
      = [{ altcoinPair := "ALT/USDT",
           result := [⟨"спад", some 10, some 120, some 130, some "спад"⟩],
           fullData := [⟨130, 49, "спад", some 120, 130⟩] }] := by
  decide

theorem foldl_indexStep_append (btc : List DirRow) (acc : List MatchingResult)
    (cands : List (String × Option (List Bar))) :
    cands.foldl (indexStep btc) acc = acc ++ cands.foldl (indexStep btc) [] := by
  induction cands generalizing acc with
  | nil => simp
  | cons c cs ih =>
    rw [List.foldl_cons, List.foldl_cons, ih, ih (indexStep btc [] c)]
    have hstep : indexStep btc acc c = acc ++ indexStep btc [] c := by
      unfold indexStep
      cases c.2 with
      | none => simp
      | some bars =>
        cases hpc : processCandidate btc c.1 bars with
        | error e => simp [hpc]
        | ok r => cases r <;> simp [hpc]
    rw [hstep, List.append_assoc]

/-- C8: a candidate whose fetch failed (none) is skipped: the analysis
output over any candidate list containing it equals the output over the
list without it, so every other candidate is still processed and the
failure never aborts the batch. -/
theorem c8_failed_fetch_skipped (btcBars : List Bar)
    (xs ys : List (String × Option (List Bar))) (sym : String) :
    index (some btcBars) (xs ++ (sym, none) :: ys) = index (some btcBars) (xs ++ ys) := by
  show List.foldl _ [] _ = List.foldl _ [] _
  rw [List.foldl_append, List.foldl_append, List.foldl_cons]
  rfl

/-- The reference bars of the no-agreement run used for C9: t=0 close 100,
t=60 close 105. -/
def btc9 : List Bar := [mkBar 0 100, mkBar 60 105]

/-- A one-bar candidate whose only row is classified DOWN against the
reference's UP, so a successful analysis of it yields no results. -/
def cand9 : List Bar := [mkBar 70 50]

/-- Counterexample to C9: when the reference series is unavailable the index
analysis returns the empty list, but that value is not a distinguishable
sentinel: a successful run with the reference present and the same candidate
returns the very same empty list. -/
theorem c9_sentinel_counterexample :
    index none [("X/USDT", some cand9)] = []
    ∧ index (some btc9) [("X/USDT", some cand9)] = []
    ∧ index none [("X/USDT", some cand9)] = index (some btc9) [("X/USDT", some cand9)] := by
  refine ⟨rfl, by decide, by decide⟩

/-- C9 as amended: when the reference series is unavailable neither endpoint
raises mid-pipeline; the index analysis returns the empty result list, which
is not distinguishable from a successful analysis with no agreeing
candidates, while the graph endpoint returns a distinct error object that no
successful page equals. -/
theorem c9_reference_unavailable_amended :
    (∀ cands, index none cands = [])
    ∧ (∀ cands, graph none cands = GraphResponse.fetchError)
    ∧ (∀ gs, GraphResponse.fetchError ≠ GraphResponse.page gs)
    ∧ index none [("X/USDT", some cand9)] = index (some btc9) [("X/USDT", some cand9)] := by
  refine ⟨fun _ => rfl, fun _ => rfl, fun gs h => ?_, by decide⟩
  cases h

/-- C10: a candidate whose per-candidate body raises (here: merge_asof on
unsorted keys) is caught and silently omitted: the analysis output over any
candidate list containing it equals the output over the list without it, so
previously accumulated results are unchanged and the remaining candidates
are still processed; the same holds for the graph endpoint. -/
theorem c10_exception_caught_per_candidate (btcBars : List Bar)
    (xs ys : List (String × Option (List Bar))) (sym : String) (bars : List Bar)
    (e e' : String)
    (h1 : processCandidate (get_price_changes btcBars) sym bars = Except.error e)
    (h2 : processGraphCandidate (get_price_changes btcBars) sym bars = Except.error e') :
    index (some btcBars) (xs ++ (sym, some bars) :: ys) = index (some btcBars) (xs ++ ys)
    ∧ graph (some btcBars) (xs ++ (sym, some bars) :: ys)
        = graph (some btcBars) (xs ++ ys) := by
  constructor
  · show List.foldl _ [] _ = List.foldl _ [] _
    rw [List.foldl_append, List.foldl_append, List.foldl_cons]
    have : indexStep (get_price_changes btcBars)
        (xs.foldl (indexStep (get_price_changes btcBars)) []) (sym, some bars)
        = xs.foldl (indexStep (get_price_changes btcBars)) [] := by
      simp only [indexStep, h1]
    rw [this]
  · show GraphResponse.page (List.foldl _ [] _) = GraphResponse.page (List.foldl _ [] _)
    rw [List.foldl_append, List.foldl_append, List.foldl_cons]
    have : graphStep (get_price_changes btcBars)
        (xs.foldl (graphStep (get_price_changes btcBars)) []) (sym, some bars)
        = xs.foldl (graphStep (get_price_changes btcBars)) [] := by
      simp only [graphStep, h2]
    rw [this]

/-- Witness for C10: a candidate with unsorted timestamps makes both
per-candidate bodies raise, and the analysis over a three-candidate list
containing it equals the analysis over the two well-behaved candidates. -/
theorem c10_exception_caught_per_candidate_witness :
    processCandidate (get_price_changes btc9) "BAD/USDT" [mkBar 10 5, mkBar 3 6]
        = Except.error "left keys must be sorted"
    ∧ index (some btc9) [("A/USDT", some cand9), ("BAD/USDT", some [mkBar 10 5, mkBar 3 6]),
        ("B/USDT", some cand9)]
      = index (some btc9) [("A/USDT", some cand9), ("B/USDT", some cand9)] :=
  ⟨rfl,
   (c10_exception_caught_per_candidate btc9 [("A/USDT", some cand9)] [("B/USDT", some cand9)]
      "BAD/USDT" [mkBar 10 5, mkBar 3 6] "left keys must be sorted" "left keys must be sorted"
      rfl rfl).1⟩

/-- Reference closes for the exact-threshold correlation dataset. -/
def btcA : List Bar := [mkBar 0 10, mkBar 1 15, mkBar 2 10, mkBar 3 5]

/-- Candidate closes whose Pearson correlation against btcA is exactly 0.8:
the aligned pairs have sxy = 40 and sxx = syy = 50, so r = 40/50. -/
def candA : List Bar := [mkBar 0 13, mkBar 1 14, mkBar 2 7, mkBar 3 6]

/-- Reference closes for the just-below-threshold correlation dataset. -/
def btcB : List Bar :=
  [mkBar 0 15999, mkBar 1 1, mkBar 2 14001, mkBar 3 1999, mkBar 4 8063,
   mkBar 5 7937, mkBar 6 8005, mkBar 7 7995, mkBar 8 8002, mkBar 9 7998]

/-- Candidate closes whose Pearson correlation against btcB is exactly
0.7999: sxy = sxx = 127968002 and syy = 200000000, so
r = 127968002 / 159980000 = 7999/10000. -/
def candB : List Bar :=
  [mkBar 0 15999, mkBar 1 1, mkBar 2 8000, mkBar 3 8000, mkBar 4 8000,
   mkBar 5 8000, mkBar 6 8000, mkBar 7 8000, mkBar 8 8000, mkBar 9 8000]

/-- A one-bar reference for the undefined-correlation dataset. -/
def btcC : List Bar := [mkBar 5 7]

/-- A one-bar candidate: a single aligned pair, so the correlation is
undefined (pandas NaN; the embedding's zero denominator gives 0). -/
def candC : List Bar := [mkBar 5 13]

theorem processGraphCandidate_retention (btc : List DirRow) (sym : String) (bars : List Bar)
    (e : GraphEntry) :
    processGraphCandidate btc sym bars = Except.ok (some e)
    ↔ (nondecreasing ((get_price_changes bars).map (·.timestamp)) = true
       ∧ nondecreasing (btc.map (·.timestamp)) = true
       ∧ correlation_threshold ≤ candidateCorrelation btc (get_price_changes bars)
       ∧ e = ⟨sym, candidateCorrelation btc (get_price_changes bars)⟩) := by
  unfold processGraphCandidate
  by_cases hl : nondecreasing ((get_price_changes bars).map (·.timestamp)) = true
  · rw [if_pos hl]
    by_cases hr : nondecreasing (btc.map (·.timestamp)) = true
    · rw [if_pos hr]
      by_cases hc : correlation_threshold ≤ candidateCorrelation btc (get_price_changes bars)
      · rw [if_pos hc]
        constructor
        · intro h
          exact ⟨hl, hr, hc, (Option.some.inj (Except.ok.inj h)).symm⟩
        · rintro ⟨-, -, -, he⟩
          rw [he]
      · rw [if_neg hc]
        constructor
        · intro h
          exact Option.noConfusion (Except.ok.inj h)
        · rintro ⟨-, -, hcc, -⟩
          exact absurd hcc hc
    · rw [if_neg hr]
      constructor
      · intro h
        exact Except.noConfusion h
      · rintro ⟨-, hrr, -, -⟩
        exact absurd hrr hr
  · rw [if_neg hl]
    constructor
    · intro h
      exact Except.noConfusion h
    · rintro ⟨hll, -, -, -⟩
      exact absurd hll hl

theorem corrA_eq :
    candidateCorrelation (get_price_changes btcA) (get_price_changes candA) = 0.8 := by
  have hxy : sxy (corrPairs (merge_asof_closes (get_price_changes candA)
      (get_price_changes btcA))) = 40 := by decide
  have hxx : sxx (corrPairs (merge_asof_closes (get_price_changes candA)
      (get_price_changes btcA))) = 50 := by decide
  have hyy : syy (corrPairs (merge_asof_closes (get_price_changes candA)
      (get_price_changes btcA))) = 50 := by decide
  unfold candidateCorrelation corr
  rw [hxy, hxx, hyy]
  push_cast
  rw [Real.mul_self_sqrt (by norm_num)]
  norm_num

theorem corrB_eq :
    candidateCorrelation (get_price_changes btcB) (get_price_changes candB) = 0.7999 := by
  have hxy : sxy (corrPairs (merge_asof_closes (get_price_changes candB)
      (get_price_changes btcB))) = 127968002 := by decide
  have hxx : sxx (corrPairs (merge_asof_closes (get_price_changes candB)
      (get_price_changes btcB))) = 127968002 := by decide
  have hyy : syy (corrPairs (merge_asof_closes (get_price_changes candB)
      (get_price_changes btcB))) = 200000000 := by decide
  unfold candidateCorrelation corr
  rw [hxy, hxx, hyy]
  push_cast
  rw [← Real.sqrt_mul (by norm_num : (0:ℝ) ≤ 127968002)]
  have hsq : (127968002 : ℝ) * 200000000 = 159980000 ^ 2 := by norm_num
  rw [hsq, Real.sqrt_sq (by norm_num : (0:ℝ) ≤ 159980000)]
  norm_num

theorem corrC_eq :
    candidateCorrelation (get_price_changes btcC) (get_price_changes candC) = 0 := by
  have hxx : sxx (corrPairs (merge_asof_closes (get_price_changes candC)
      (get_price_changes btcC))) = 0 := by decide
  unfold candidateCorrelation corr
  rw [hxx]
  push_cast
  rw [Real.sqrt_zero]
  simp

/-- C6: a candidate is retained by the correlation filter exactly when the
merge succeeds and its Pearson correlation over the aligned pairs is at
least the 0.8 threshold; a dataset with correlation exactly 0.8 is retained,
one with correlation 0.7999 is rejected, and a dataset with a single
aligned pair (undefined correlation) is rejected. -/
theorem c6_correlation_threshold :
    (∀ (btc : List DirRow) (sym : String) (bars : List Bar) (e : GraphEntry),
        processGraphCandidate btc sym bars = Except.ok (some e)
        ↔ (nondecreasing ((get_price_changes bars).map (·.timestamp)) = true
           ∧ nondecreasing (btc.map (·.timestamp)) = true
           ∧ correlation_threshold ≤ candidateCorrelation btc (get_price_changes bars)
           ∧ e = ⟨sym, candidateCorrelation btc (get_price_changes bars)⟩))
    ∧ candidateCorrelation (get_price_changes btcA) (get_price_changes candA) = 0.8
    ∧ processGraphCandidate (get_price_changes btcA) "A/USDT" candA
        = Except.ok (some ⟨"A/USDT",
            candidateCorrelation (get_price_changes btcA) (get_price_changes candA)⟩)
    ∧ candidateCorrelation (get_price_changes btcB) (get_price_changes candB) = 0.7999
    ∧ processGraphCandidate (get_price_changes btcB) "B/USDT" candB = Except.ok none
    ∧ (corrPairs (merge_asof_closes (get_price_changes candC) (get_price_changes btcC))).length = 1
    ∧ processGraphCandidate (get_price_changes btcC) "C/USDT" candC = Except.ok none := by
  refine ⟨processGraphCandidate_retention, corrA_eq, ?_, corrB_eq, ?_, by decide, ?_⟩
  · exact (processGraphCandidate_retention _ _ _ _).mpr
      ⟨by decide, by decide, by rw [corrA_eq]; norm_num [correlation_threshold], rfl⟩
  · unfold processGraphCandidate
    rw [if_pos (by decide), if_pos (by decide),
      if_neg (by rw [corrB_eq]; norm_num [correlation_threshold])]
  · unfold processGraphCandidate
    rw [if_pos (by decide), if_pos (by decide),
      if_neg (by rw [corrC_eq]; norm_num [correlation_threshold])]

/-- Witness for C6: the retention criterion applied at the exact-threshold
dataset shows the candidate retained with its correlation. -/
theorem c6_correlation_threshold_witness :
    processGraphCandidate (get_price_changes btcA) "W/USDT" candA
      = Except.ok (some ⟨"W/USDT",
          candidateCorrelation (get_price_changes btcA) (get_price_changes candA)⟩) :=
  (c6_correlation_threshold.1 (get_price_changes btcA) "W/USDT" candA
      ⟨"W/USDT", candidateCorrelation (get_price_changes btcA) (get_price_changes candA)⟩).mpr
    ⟨by decide, by decide,
     by rw [c6_correlation_threshold.2.1]; norm_num [correlation_threshold], rfl⟩

end CriptoAnalytics
